import Mathlib

/-!
Verification development for the remote-m8 repository: a bridge between an
M8 tracker connected over serial and networked UI clients.  Bytes are
modelled as natural numbers (the source works on u8 values; all arithmetic
performed on them in the source is exact in the modelled range), byte
buffers as lists.  Every definition is a shallow embedding of a function of
the repository, named after its source counterpart where Lean allows.
-/

namespace M8

/-! ## SLIP reassembly (src/src/serial.rs, read loop of spawn;
src/server/src/serial.rs SLIPCodec::decode has the same splitting rule) -/

/-- END marker byte 0xC0 of the SLIP framing (mod slip in src/src/serial.rs). -/
def slipEnd : Nat := 0xc0

/-- Index of the last occurrence of the END marker in a buffer, mirroring
the backward scan work_buffer.iter().enumerate().rev().find_map in
src/src/serial.rs lines 75-80. -/
def lastEndIdx : List Nat → Option Nat
  | [] => none
  | b :: rest =>
    match lastEndIdx rest with
    | some i => some (i + 1)
    | none => if b = slipEnd then some 0 else none

/-- One push of freshly read bytes into the reassembler: append to the
residual work buffer, split after the last END marker if there is one
(src/src/serial.rs lines 73-91).  Returns the new residual and the emitted
chunk, if any. -/
def slipPush (residual data : List Nat) : List Nat × Option (List Nat) :=
  let buf := residual ++ data
  match lastEndIdx buf with
  | some i => (buf.drop (i + 1), some (buf.take (i + 1)))
  | none => (buf, none)

/-- Feed a list of read-sized pieces through the reassembler one push at a
time, collecting the emitted chunks in order. -/
def runPieces (r : List Nat) : List (List Nat) → List Nat × List (List Nat)
  | [] => (r, [])
  | p :: ps =>
    let s1 := slipPush r p
    let rest := runPieces s1.1 ps
    (rest.1, s1.2.toList ++ rest.2)

/-- Structural reformulation of the split-at-last-END operation, used only
in proofs: returns the emitted part and the residual directly. -/
def splitEnd : List Nat → Option (List Nat × List Nat)
  | [] => none
  | b :: rest =>
    match splitEnd rest with
    | some p => some (b :: p.1, p.2)
    | none => if b = slipEnd then some ([b], rest) else none

/-! ## Display protocol decoder (src/ui/src/main.rs, websocket message loop).
Sub-frame bodies are the byte lists obtained after the SLIP unescape step
(simple_slip::decode, an external crate); opcode dispatch and field
extraction below mirror the match in src/ui/src/main.rs lines 256-404.
Decoding returns none exactly where the source panics (out-of-bounds
indexing on a too-short body, an unknown font id, or a non-ASCII text
byte). -/

/-- Mutable decoder state: the carried-forward color and the active font id
(variables last_r, last_g, last_b, font_id in src/ui/src/main.rs). -/
structure DecState where
  last_r : Nat
  last_g : Nat
  last_b : Nat
  font_id : Nat
  deriving DecidableEq

/-- Screen width constant M8_SCREEN_WIDTH of src/ui/src/main.rs. -/
def M8_SCREEN_WIDTH : Nat := 320

/-- Screen height constant M8_SCREEN_HEIGHT of src/ui/src/main.rs. -/
def M8_SCREEN_HEIGHT : Nat := 240

/-- Drawing operations the decoder emits (the draw calls made in the match
arms of src/ui/src/main.rs). -/
inductive Op where
  | clearBackground
  | drawRectangle (x y w h r g b : Nat)
  | drawText (ch x y r g b font : Nat)
  deriving DecidableEq

/-- Field extraction of the RECT arm (src/ui/src/main.rs lines 259-294):
x and y come from the first four body bytes as little-endian u16 pairs
(panic, hence none, if fewer than four are present); w, h and the color
depend on the body length, defaulting to 1 and to the stored color.  The
u8-to-f32 arithmetic of the source is exact on the byte range and is
modelled on Nat. -/
def rectFields (st : DecState) (frame : List Nat) :
    Option (Nat × Nat × Nat × Nat × Nat × Nat × Nat) :=
  if 4 ≤ frame.length then
    let x := frame.getD 0 0 + frame.getD 1 0 * 256
    let y := frame.getD 2 0 + frame.getD 3 0 * 256
    let rest :=
      if frame.length = 11 then
        (frame.getD 4 0 + frame.getD 5 0 * 256, frame.getD 6 0 + frame.getD 7 0 * 256,
          frame.getD 8 0, frame.getD 9 0, frame.getD 10 0)
      else if frame.length = 8 then
        (frame.getD 4 0 + frame.getD 5 0 * 256, frame.getD 6 0 + frame.getD 7 0 * 256,
          st.last_r, st.last_g, st.last_b)
      else if frame.length = 7 then
        (1, 1, frame.getD 4 0, frame.getD 5 0, frame.getD 6 0)
      else
        (1, 1, st.last_r, st.last_g, st.last_b)
    some (x, y, rest.1, rest.2.1, rest.2.2.1, rest.2.2.2.1, rest.2.2.2.2)
  else none

/-- Decoder for one unescaped sub-frame: leading opcode byte then body,
mirroring the inner match of src/ui/src/main.rs lines 256-404 (arms RECT
0xFE, TEXT 0xFD, WAVE 0xFC, SYSTEM 0xFF, and the permissive catch-all).
Returns the updated decoder state and the emitted operations; none models
a panic of the source. -/
def decodeFrame (st : DecState) (decoded : List Nat) : Option (DecState × List Op) :=
  match decoded with
  | [] => none
  | t :: frame =>
    if t = 254 then
      match rectFields st frame with
      | none => none
      | some (x, y, w, h, r, g, b) =>
        some ({ st with last_r := r, last_g := g, last_b := b },
          [if x = 0 ∧ y = 0 ∧ M8_SCREEN_WIDTH ≤ w ∧ M8_SCREEN_HEIGHT ≤ h then
            Op.clearBackground
          else Op.drawRectangle x y w h r g b])
    else if t = 253 then
      if 11 ≤ frame.length then
        let c := frame.getD 0 0
        let x := frame.getD 1 0 + frame.getD 2 0 * 256
        let y := frame.getD 3 0 + frame.getD 4 0 * 256
        let fr := frame.getD 5 0
        let fg := frame.getD 6 0
        let fb := frame.getD 7 0
        let br := frame.getD 8 0
        let bg := frame.getD 9 0
        let bb := frame.getD 10 0
        if st.font_id = 0 ∨ st.font_id = 1 then
          if c < 128 then
            some (st,
              (if (fr, fg, fb) ≠ (br, bg, bb) then
                [Op.drawRectangle x (y + 11 - 10) 8 11 br bg bb]
              else []) ++ [Op.drawText c x (y + 11) fr fg fb st.font_id])
          else none
        else none
      else none
    else if t = 252 then
      if 3 ≤ frame.length then
        some (st, Op.drawRectangle 0 0 M8_SCREEN_WIDTH 24 0 0 0 ::
          (frame.drop 3).enum.map (fun p =>
            Op.drawRectangle p.1 (min p.2 20) 1 1
              (frame.getD 0 0) (frame.getD 1 0) (frame.getD 2 0)))
      else none
    else if t = 255 then
      match frame.get? 4 with
      | some f => some ({ st with font_id := f }, [])
      | none => none
    else some (st, [])

/-- Waveform decode of the WAVE arm of Parser::parse in src/ui/src/parser.rs
lines 157-184: the body is color r, g, b then one height byte per column;
each column is plotted at the height clamped with min to WAVE_HEIGHT - 1,
and an empty column list clears the waveform (models waveform = None).
Modelled from the spec: the constant WAVE_HEIGHT is referenced by
src/ui/src/parser.rs but defined nowhere in the repository snapshot, so the
waveform height is taken here as an explicit positive parameter (the spec
describes the clamp as waveform-height minus one).  The outer Option models
the panic of split_at(3) on a body shorter than three bytes; the inner
Option is the waveform: none clears it, some carries the plotted points and
their color. -/
def parseWave (waveHeight : Nat) (frame : List Nat) :
    Option (Option (List (Nat × Nat) × (Nat × Nat × Nat))) :=
  if 3 ≤ frame.length then
    let data := frame.drop 3
    if data.isEmpty then some none
    else some (some (data.enum.map (fun p => (p.1, min p.2 (waveHeight - 1))),
      (frame.getD 0 0, frame.getD 1 0, frame.getD 2 0)))
  else none

/-! ## Capture-side audio pipeline (src/src/audio.rs write_data and the
write_data of src/src/main.rs lines 367-396).  The cpal sample buffer is a
slice of some sample type T; it is modelled as the list of the raw
(bit-pattern) sample values, as natural numbers.  The unsafe align_to of
the source splits the slice into an unaligned head, a run of whole 16-byte
machine words, and an unaligned tail; the split depends on the buffer's
memory address, so it enters the model as explicit pre / words / suf
arguments subject to that decomposition. -/

/-- Interface model of one cpal sample format: the byte width of the
sample type and the predicate telling whether f32::from_sample of a raw
value compares equal to 0.0f32.  For the signed integer formats the zero
sample is raw 0; for the unsigned formats it is the midpoint (cpal places
the equilibrium of uN at 2^(N-1), so raw 0 converts to -1.0); for the
float formats both zero bit patterns compare equal to 0.0. -/
structure Fmt where
  bytes : Nat
  isZeroF32 : Nat → Bool

/-- i8 sample format. -/
def i8Fmt : Fmt := ⟨1, fun v => v == 0⟩

/-- i16 sample format. -/
def i16Fmt : Fmt := ⟨2, fun v => v == 0⟩

/-- i32 sample format. -/
def i32Fmt : Fmt := ⟨4, fun v => v == 0⟩

/-- i64 sample format. -/
def i64Fmt : Fmt := ⟨8, fun v => v == 0⟩

/-- u8 sample format: raw 0 converts to -1.0, the zero sample is 128. -/
def u8Fmt : Fmt := ⟨1, fun v => v == 128⟩

/-- u16 sample format. -/
def u16Fmt : Fmt := ⟨2, fun v => v == 32768⟩

/-- u32 sample format. -/
def u32Fmt : Fmt := ⟨4, fun v => v == 2 ^ 31⟩

/-- u64 sample format. -/
def u64Fmt : Fmt := ⟨8, fun v => v == 2 ^ 63⟩

/-- f32 sample format: both signed zero bit patterns compare equal to 0.0. -/
def f32Fmt : Fmt := ⟨4, fun v => v == 0 || v == 2 ^ 31⟩

/-- f64 sample format. -/
def f64Fmt : Fmt := ⟨8, fun v => v == 0 || v == 2 ^ 63⟩

/-- Value of one aligned machine word as the base-2^(8·bytes) number formed
by its samples (little-endian; the u128 compared against 0 by the source).
The word is zero exactly when every sample bit pattern in it is zero,
whatever the byte order, which is all the source uses. -/
def wordVal (fmt : Fmt) (w : List Nat) : Nat :=
  w.foldr (fun b acc => b + acc * 2 ^ (8 * fmt.bytes)) 0

/-- Silence test of write_data (src/src/audio.rs lines 252-259 and
src/src/main.rs lines 372-378): every unaligned head sample and tail sample
converts to 0.0f32, and every aligned machine word is zero. -/
def silenceCheck (fmt : Fmt) (pre : List Nat) (words : List (List Nat))
    (suf : List Nat) : Bool :=
  pre.all fmt.isZeroF32 && suf.all fmt.isZeroF32 &&
    words.all (fun w => wordVal fmt w == 0)

/-- Channel split of the drain loop in src/src/audio.rs lines 271-280:
even-indexed samples to the left buffer, odd-indexed to the right. -/
def deinterleave {S : Type} : List S → List S × List S
  | [] => ([], [])
  | [a] => ([a], [])
  | a :: b :: rest =>
    let p := deinterleave rest
    (a :: p.1, b :: p.2)

/-- Resampling drain loop of write_data (src/src/audio.rs lines 265-302):
while the pending queue holds at least input_frames_next() * 2 samples,
drain exactly that many from the front, split channels, run one resampler
step and emit its interleaved output chunk.  The rubato resampler is an
external crate and enters as an abstract state machine: nf gives
input_frames_next of a state (always positive for rubato, hypothesis
hpos), step consumes the two channel buffers and yields the next state and
the interleaved output chunk, and conv is f32::from_sample.  Returns the
final resampler state, the remaining queue and the emitted chunks. -/
def resampleLoop {S σ : Type} (conv : Nat → S) (nf : σ → Nat)
    (step : σ → List S → List S → σ × List S) (hpos : ∀ s, 0 < nf s)
    (st : σ) (q : List Nat) : σ × List Nat × List (List S) :=
  if h : nf st * 2 ≤ q.length then
    let lr := deinterleave ((q.take (nf st * 2)).map conv)
    let s2 := step st lr.1 lr.2
    let rest := resampleLoop conv nf step hpos s2.1 (q.drop (nf st * 2))
    (rest.1, rest.2.1, s2.2 :: rest.2.2)
  else (st, q, [])
termination_by q.length
decreasing_by
  have h1 : 0 < nf st := hpos st
  simp only [List.length_drop]
  omega

/-- One drain-loop iteration of resampleLoop in isolation: the resampler
step applied to the channel split of the first input_frames_next() * 2
queue samples, giving the next resampler state and the emitted chunk. -/
def stepState {S σ : Type} (conv : Nat → S) (nf : σ → Nat)
    (step : σ → List S → List S → σ × List S) (st : σ) (q : List Nat) : σ × List S :=
  step st (deinterleave ((q.take (nf st * 2)).map conv)).1
    (deinterleave ((q.take (nf st * 2)).map conv)).2

/-- Capture callback write_data of src/src/audio.rs lines 237-303: skip the
buffer entirely when the silence test passes, otherwise append it to the
pending sample queue and run the resampling drain loop. -/
def write_data {S σ : Type} (fmt : Fmt) (conv : Nat → S) (nf : σ → Nat)
    (step : σ → List S → List S → σ × List S) (hpos : ∀ s, 0 < nf s)
    (pre : List Nat) (words : List (List Nat)) (suf : List Nat)
    (st : σ) (q : List Nat) : σ × List Nat × List (List S) :=
  if silenceCheck fmt pre words suf then (st, q, [])
  else resampleLoop conv nf step hpos st (q ++ (pre ++ words.flatten ++ suf))

/-- Capture callback write_data of src/src/main.rs lines 367-396: skip the
buffer when the silence test passes, otherwise convert, zlib-encode (the
conversion and flate2 encoder are external and abstracted as enc) and send
one tag-A message, byte 65, followed by the encoded payload. -/
def write_data_az (fmt : Fmt) (enc : List Nat → List Nat) (pre : List Nat)
    (words : List (List Nat)) (suf : List Nat) : Option (List Nat) :=
  if silenceCheck fmt pre words suf then none
  else some (65 :: enc (pre ++ words.flatten ++ suf))

/-! ## Playback audio callback (src/ui/src/audio.rs write_audio). -/

/-- Playback callback write_audio of src/ui/src/audio.rs lines 118-140.
popped is the sample run obtained from pop_slice (its length is the
source's written, at most data.len()), data is the hardware output buffer
with its pre-existing contents.  The copy loop overwrites the first
written slots; when slots remain, they are all set to the value found at
index written of the buffer, which the copy loop has not touched. -/
def write_audio {S : Type} (popped data : List S) : List S :=
  let written := popped.length
  let copied := popped.take data.length ++ data.drop (min written data.length)
  if 0 < data.length - written then
    match copied.drop written with
    | last :: _ => copied.take written ++ List.replicate (data.length - written) last
    | [] => copied
  else copied

/-! ## Serial read loop (src/src/serial.rs lines 56-93, identical loop in
src/src/main.rs lines 200-238).  The write-path poll of the control
channel that follows each read is independent of the read handling and is
not part of the modelled state. -/

/-- Outcome of one sp.read call as seen by the loop. -/
inductive ReadEvent where
  | timeoutErr
  | interruptedErr
  | otherErr
  | ok (bytes : List Nat)

/-- Message pushed to the broadcast side channel. -/
inductive SerialMsg where
  | binary (payload : List Nat)
  | close
  deriving DecidableEq

/-- Read loop of the serial thread: timeout and interrupted errors are
skipped, any other error panics (none), a zero-length read emits one close
message and breaks out of the loop, and a non-empty read goes through the
SLIP reassembler, emitting the ready chunk prefixed with the tag byte 83
(the character S).  Returns the final work buffer, the emitted messages in
order, and whether the loop terminated by itself. -/
def readLoop : List Nat → List ReadEvent → Option (List Nat × List SerialMsg × Bool)
  | wb, [] => some (wb, [], false)
  | wb, ReadEvent.timeoutErr :: evs => readLoop wb evs
  | wb, ReadEvent.interruptedErr :: evs => readLoop wb evs
  | _, ReadEvent.otherErr :: _ => none
  | wb, ReadEvent.ok bytes :: evs =>
    if bytes.length = 0 then some (wb, [SerialMsg.close], true)
    else
      let res := slipPush wb bytes
      match readLoop res.1 evs with
      | none => none
      | some (wbf, msgs, term) =>
        match res.2 with
        | some chunk => some (wbf, SerialMsg.binary (83 :: chunk) :: msgs, term)
        | none => some (wbf, msgs, term)

/-! ## Keyboard handler (src/ui/src/main.rs process_key, lines 432-447). -/

/-- Key codes relevant to the keymap of src/ui/src/main.rs lines 179-188;
other stands for any unmapped key. -/
inductive Key where
  | up
  | down
  | left
  | right
  | leftShift
  | space
  | z
  | x
  | other
  deriving DecidableEq

/-- Bit position of each mapped key (the HashMap of src/ui/src/main.rs
lines 179-188). -/
def keymap : Key → Option Nat
  | Key.up => some 6
  | Key.down => some 5
  | Key.left => some 7
  | Key.right => some 2
  | Key.leftShift => some 4
  | Key.space => some 3
  | Key.z => some 1
  | Key.x => some 0
  | Key.other => none

/-- Key handler process_key of src/ui/src/main.rs lines 432-447: on a
mapped key, set or clear its bit in the u8 keystate; if the bitmask is
unchanged, return without sending; otherwise store it and send the
two-byte message 0x43 (67) followed by the new mask.  The u8 complement of
the source's !(1 << bit) is 255 xor (1 << bit). -/
def process_key (keystate : Nat) (k : Key) (down : Bool) :
    Nat × Option (List Nat) :=
  match keymap k with
  | none => (keystate, none)
  | some bit =>
    let newState :=
      match down with
      | true => keystate ||| 1 <<< bit
      | false => keystate &&& (255 ^^^ 1 <<< bit)
    if newState = keystate then (keystate, none)
    else (newState, some [67, newState])

theorem splitEnd_eq_lastEndIdx (l : List Nat) :
    splitEnd l = match lastEndIdx l with
      | some i => some (l.take (i + 1), l.drop (i + 1))
      | none => none := by
  induction l with
  | nil => rfl
  | cons b rest ih =>
    cases h : lastEndIdx rest with
    | some i =>
      simp only [splitEnd, lastEndIdx, h, ih, List.take, List.drop]
    | none =>
      by_cases hb : b = slipEnd
      · simp [splitEnd, lastEndIdx, h, ih, hb]
      · simp only [splitEnd, lastEndIdx, h, ih, if_neg hb]

theorem slipPush_eq_splitEnd (r d : List Nat) :
    slipPush r d = match splitEnd (r ++ d) with
      | some p => (p.2, some p.1)
      | none => (r ++ d, none) := by
  rw [slipPush, splitEnd_eq_lastEndIdx]
  cases lastEndIdx (r ++ d) <;> rfl

theorem splitEnd_append (a b : List Nat) :
    splitEnd (a ++ b) = match splitEnd b with
      | some p => some (a ++ p.1, p.2)
      | none => match splitEnd a with
        | some p => some (p.1, p.2 ++ b)
        | none => none := by
  induction a with
  | nil =>
    cases hb : splitEnd b with
    | some p => simp [hb]
    | none => simp [splitEnd, hb]
  | cons x a ih =>
    cases hb : splitEnd b with
    | some p =>
      simp only [List.cons_append, splitEnd, List.append_eq, ih, hb]
    | none =>
      cases ha : splitEnd a with
      | some p =>
        simp only [List.cons_append, splitEnd, List.append_eq, ih, hb, ha]
      | none =>
        simp only [List.cons_append, splitEnd, List.append_eq, ih, hb, ha]
        by_cases hx : x = slipEnd
        · simp [hx]
        · simp [hx]

theorem splitEnd_residual {l e rest : List Nat} (h : splitEnd l = some (e, rest)) :
    splitEnd rest = none := by
  induction l generalizing e rest with
  | nil => simp [splitEnd] at h
  | cons b l ih =>
    simp only [splitEnd] at h
    cases hl : splitEnd l with
    | some p =>
      rw [hl] at h
      cases h
      exact ih hl
    | none =>
      rw [hl] at h
      by_cases hb : b = slipEnd
      · rw [if_pos hb] at h
        cases h
        exact hl
      · rw [if_neg hb] at h
        cases h

theorem splitEnd_parts {l e rest : List Nat} (h : splitEnd l = some (e, rest)) :
    e ++ rest = l := by
  induction l generalizing e rest with
  | nil => simp [splitEnd] at h
  | cons b l ih =>
    simp only [splitEnd] at h
    cases hl : splitEnd l with
    | some p =>
      rw [hl] at h
      cases h
      simp [ih hl]
    | none =>
      rw [hl] at h
      by_cases hb : b = slipEnd
      · rw [if_pos hb] at h
        cases h
        rfl
      · rw [if_neg hb] at h
        cases h

/-- Merging two successive pushes: the final residual and the concatenated
emissions agree with a single push of the concatenated data. -/
theorem slipPush_merge (r p q : List Nat) :
    (slipPush (slipPush r p).1 q).1 = (slipPush r (p ++ q)).1 ∧
    (slipPush r p).2.getD [] ++ (slipPush (slipPush r p).1 q).2.getD [] =
      (slipPush r (p ++ q)).2.getD [] := by
  have hassoc : r ++ (p ++ q) = (r ++ p) ++ q := (List.append_assoc r p q).symm
  cases hrp : splitEnd (r ++ p) with
  | none =>
    have h1 : slipPush r p = (r ++ p, none) := by
      rw [slipPush_eq_splitEnd, hrp]
    have h2 : slipPush r (p ++ q) = slipPush (r ++ p) q := by
      rw [slipPush_eq_splitEnd, slipPush_eq_splitEnd, hassoc]
    rw [h1, h2]
    simp
  | some pr =>
    obtain ⟨e1, rest1⟩ := pr
    have h1 : slipPush r p = (rest1, some e1) := by
      rw [slipPush_eq_splitEnd, hrp]
    have hres : splitEnd rest1 = none := splitEnd_residual hrp
    have hparts : e1 ++ rest1 = r ++ p := splitEnd_parts hrp
    cases hq : splitEnd q with
    | none =>
      have h2 : splitEnd (rest1 ++ q) = none := by
        rw [splitEnd_append, hq, hres]
      have h3 : splitEnd ((r ++ p) ++ q) = some (e1, rest1 ++ q) := by
        rw [splitEnd_append, hq, hrp]
      rw [h1, slipPush_eq_splitEnd, h2, slipPush_eq_splitEnd, hassoc, h3]
      simp
    | some pq =>
      obtain ⟨e2, rest2⟩ := pq
      have h2 : splitEnd (rest1 ++ q) = some (rest1 ++ e2, rest2) := by
        rw [splitEnd_append, hq]
      have h3 : splitEnd ((r ++ p) ++ q) = some ((r ++ p) ++ e2, rest2) := by
        rw [splitEnd_append, hq]
      rw [h1, slipPush_eq_splitEnd, h2, slipPush_eq_splitEnd, hassoc, h3]
      constructor
      · rfl
      · simp only [Option.getD_some]
        rw [← List.append_assoc, hparts]

/-- Conservation of bytes over one push. -/
theorem slipPush_conserve (r d : List Nat) :
    (slipPush r d).2.getD [] ++ (slipPush r d).1 = r ++ d := by
  rw [slipPush_eq_splitEnd]
  cases h : splitEnd (r ++ d) with
  | none => simp
  | some p =>
    obtain ⟨e, rest⟩ := p
    simpa using splitEnd_parts h

/-- Piecewise runs agree with a single push of the concatenated data, for a
nonempty list of pieces. -/
theorem runPieces_eq_single (ps : List (List Nat)) (hne : ps ≠ []) (r : List Nat) :
    (runPieces r ps).1 = (slipPush r ps.flatten).1 ∧
    (runPieces r ps).2.flatten = (slipPush r ps.flatten).2.getD [] := by
  induction ps generalizing r with
  | nil => exact absurd rfl hne
  | cons p ps ih =>
    by_cases hps : ps = []
    · subst hps
      simp only [runPieces, List.flatten_cons, List.flatten_nil, List.append_nil]
      constructor
      · simp
      · cases h : (slipPush r p).2 <;> simp [h]
    · have ihm := ih hps (slipPush r p).1
      have hm := slipPush_merge r p ps.flatten
      simp only [runPieces, List.flatten_cons]
      constructor
      · rw [ihm.1, hm.1]
      · rw [List.flatten_append]
        cases h : (slipPush r p).2 with
        | none =>
          have hg : (slipPush r p).2.getD [] = [] := by rw [h]; rfl
          rw [← hm.2, hg]
          simpa [h] using ihm.2
        | some c =>
          have hg : (slipPush r p).2.getD [] = c := by rw [h]; rfl
          rw [← hm.2, hg]
          simp only [h, Option.toList_some, List.flatten_cons, List.flatten_nil,
            List.append_nil]
          rw [ihm.2]

/-- C1: for every byte sequence and every chopping of it into read-sized
pieces, pushing the pieces one at a time through the SLIP reassembler
leaves the same residual and emits the same concatenated chunk bytes as a
single full-buffer pass; no byte is lost or duplicated (the emitted bytes
followed by the residual are exactly the input); and each push appends the
data to the residual, emitting bytes up to and including the last END
marker at index i when one exists and retaining the bytes after it. -/
theorem c1_slip_chunking (pieces : List (List Nat)) :
    (runPieces [] pieces).1 = (runPieces [] [pieces.flatten]).1 ∧
    (runPieces [] pieces).2.flatten = (runPieces [] [pieces.flatten]).2.flatten ∧
    (runPieces [] pieces).2.flatten ++ (runPieces [] pieces).1 = pieces.flatten ∧
    ∀ r d, slipPush r d = match lastEndIdx (r ++ d) with
      | some i => ((r ++ d).drop (i + 1), some ((r ++ d).take (i + 1)))
      | none => (r ++ d, none) := by
  by_cases hne : pieces = []
  · subst hne
    exact ⟨rfl, rfl, rfl, fun r d => rfl⟩
  · have h1 := runPieces_eq_single pieces hne []
    have h2 := runPieces_eq_single [pieces.flatten] (by simp) []
    have hfl : ([pieces.flatten] : List (List Nat)).flatten = pieces.flatten := by simp
    rw [hfl] at h2
    have hc := slipPush_conserve [] pieces.flatten
    refine ⟨?_, ?_, ?_, fun r d => rfl⟩
    · rw [h1.1, h2.1]
    · rw [h1.2, h2.2]
    · rw [h1.2, h1.1]
      simpa using hc

/-- C7: in the serial read loop, a read failing with a timeout or
interrupted error is skipped and the loop continues with the reassembly
state unchanged, while a successful zero-length read emits exactly one
close notification and terminates the loop, performing no further reads
(the remaining events are never examined). -/
theorem c7_read_loop_errors (wb : List Nat) (evs : List ReadEvent) :
    readLoop wb (ReadEvent.timeoutErr :: evs) = readLoop wb evs ∧
    readLoop wb (ReadEvent.interruptedErr :: evs) = readLoop wb evs ∧
    readLoop wb (ReadEvent.ok [] :: evs) = some (wb, [SerialMsg.close], true) :=
  ⟨rfl, rfl, rfl⟩

/-- C8, counterexample to the claim as stated: decoding is not total over
arbitrary sub-frame byte sequences.  A RECT sub-frame with an empty body
makes the decoder fail (the source panics indexing frame[0]), instead of
being silently ignored. -/
theorem c8_counterexample :
    decodeFrame ⟨0, 0, 0, 0⟩ [254] = none := by decide

/-- C8, amended: a sub-frame whose leading opcode byte is unknown (none of
RECT 0xFE, TEXT 0xFD, WAVE 0xFC, SYSTEM 0xFF) is silently ignored: the
decoder succeeds, emits no operation and leaves its state unchanged.
Decode is not, however, total over known opcodes with truncated bodies
(see the counterexample). -/
theorem c8_unknown_opcode (st : DecState) (t : Nat) (frame : List Nat)
    (h1 : t ≠ 254) (h2 : t ≠ 253) (h3 : t ≠ 252) (h4 : t ≠ 255) :
    decodeFrame st (t :: frame) = some (st, []) := by
  simp only [decodeFrame]
  rw [if_neg h1, if_neg h2, if_neg h3, if_neg h4]

/-- C8 witness: a concrete unknown opcode byte is ignored. -/
theorem c8_witness : decodeFrame ⟨1, 2, 3, 0⟩ [7, 42, 192] = some (⟨1, 2, 3, 0⟩, []) :=
  c8_unknown_opcode ⟨1, 2, 3, 0⟩ 7 [42, 192] (by decide) (by decide) (by decide) (by decide)

/-- C2: a RECT sub-frame with an 11-byte body decodes to exactly the given
x, y (little-endian u16 pairs), w, h and r, g, b color and stores that
color; an 8-byte body gives the explicit w, h with the stored color
carried forward; a 7-byte body gives w = h = 1 with the explicit color
(stored); a 5-byte body gives w = h = 1 with the stored color carried
forward.  The emitted operation is the rectangle with those fields (or the
background clear when the full-screen condition of C3 holds, only possible
for the 11- and 8-byte forms since otherwise w = h = 1). -/
theorem c2_rect_variants (st : DecState) (x0 x1 y0 y1 : Nat) :
    (∀ w0 w1 h0 h1 r g b,
      decodeFrame st [254, x0, x1, y0, y1, w0, w1, h0, h1, r, g, b] =
        some ({ last_r := r, last_g := g, last_b := b, font_id := st.font_id },
          [if x0 + x1 * 256 = 0 ∧ y0 + y1 * 256 = 0 ∧
              M8_SCREEN_WIDTH ≤ w0 + w1 * 256 ∧ M8_SCREEN_HEIGHT ≤ h0 + h1 * 256 then
            Op.clearBackground
          else
            Op.drawRectangle (x0 + x1 * 256) (y0 + y1 * 256)
              (w0 + w1 * 256) (h0 + h1 * 256) r g b])) ∧
    (∀ w0 w1 h0 h1,
      decodeFrame st [254, x0, x1, y0, y1, w0, w1, h0, h1] =
        some (st,
          [if x0 + x1 * 256 = 0 ∧ y0 + y1 * 256 = 0 ∧
              M8_SCREEN_WIDTH ≤ w0 + w1 * 256 ∧ M8_SCREEN_HEIGHT ≤ h0 + h1 * 256 then
            Op.clearBackground
          else
            Op.drawRectangle (x0 + x1 * 256) (y0 + y1 * 256)
              (w0 + w1 * 256) (h0 + h1 * 256) st.last_r st.last_g st.last_b])) ∧
    (∀ r g b,
      decodeFrame st [254, x0, x1, y0, y1, r, g, b] =
        some ({ last_r := r, last_g := g, last_b := b, font_id := st.font_id },
          [Op.drawRectangle (x0 + x1 * 256) (y0 + y1 * 256) 1 1 r g b])) ∧
    (∀ e4,
      decodeFrame st [254, x0, x1, y0, y1, e4] =
        some (st,
          [Op.drawRectangle (x0 + x1 * 256) (y0 + y1 * 256) 1 1
            st.last_r st.last_g st.last_b])) := by
  refine ⟨fun w0 w1 h0 h1 r g b => rfl, fun w0 w1 h0 h1 => rfl,
    fun r g b => ?_, fun e4 => ?_⟩
  · have hred : decodeFrame st [254, x0, x1, y0, y1, r, g, b] =
        some ({ last_r := r, last_g := g, last_b := b, font_id := st.font_id },
          [if x0 + x1 * 256 = 0 ∧ y0 + y1 * 256 = 0 ∧
              M8_SCREEN_WIDTH ≤ 1 ∧ M8_SCREEN_HEIGHT ≤ 1 then
            Op.clearBackground
          else Op.drawRectangle (x0 + x1 * 256) (y0 + y1 * 256) 1 1 r g b]) := rfl
    rw [hred, if_neg (fun hc => absurd hc.2.2.1 (by decide))]
  · have hred : decodeFrame st [254, x0, x1, y0, y1, e4] =
        some (st,
          [if x0 + x1 * 256 = 0 ∧ y0 + y1 * 256 = 0 ∧
              M8_SCREEN_WIDTH ≤ 1 ∧ M8_SCREEN_HEIGHT ≤ 1 then
            Op.clearBackground
          else Op.drawRectangle (x0 + x1 * 256) (y0 + y1 * 256) 1 1
            st.last_r st.last_g st.last_b]) := rfl
    rw [hred, if_neg (fun hc => absurd hc.2.2.1 (by decide))]

/-- C3: every RECT sub-frame whose decoded fields are x = 0, y = 0,
w at least the screen width and h at least the screen height emits
ClearBackground rather than DrawRectangle, and the decoder color state is
still updated from the frame's decoded color fields. -/
theorem c3_clear_background (st : DecState) (frame : List Nat)
    (x y w h r g b : Nat)
    (hf : rectFields st frame = some (x, y, w, h, r, g, b))
    (hx : x = 0) (hy : y = 0) (hw : M8_SCREEN_WIDTH ≤ w) (hh : M8_SCREEN_HEIGHT ≤ h) :
    decodeFrame st (254 :: frame) =
      some ({ last_r := r, last_g := g, last_b := b, font_id := st.font_id },
        [Op.clearBackground]) := by
  simp only [decodeFrame, if_pos rfl, hf]
  rw [if_pos (show x = 0 ∧ y = 0 ∧ M8_SCREEN_WIDTH ≤ w ∧ M8_SCREEN_HEIGHT ≤ h from
    ⟨hx, hy, hw, hh⟩)]
  exact if_pos trivial

/-- C3 witness: an 11-byte full-screen black rectangle at the origin
clears the background and stores the frame's color. -/
theorem c3_witness :
    decodeFrame ⟨9, 9, 9, 0⟩ (254 :: [0, 0, 0, 0, 64, 1, 240, 0, 1, 2, 3]) =
      some (⟨1, 2, 3, 0⟩, [Op.clearBackground]) :=
  c3_clear_background ⟨9, 9, 9, 0⟩ [0, 0, 0, 0, 64, 1, 240, 0, 1, 2, 3]
    0 0 320 240 1 2 3 rfl rfl rfl (by decide) (by decide)

/-- C9: a WAVE sub-frame with non-empty column data decodes to the
waveform made of one point per column at the height clamped with min to
the waveform height minus one, in the given r, g, b color; a WAVE
sub-frame whose column data is empty (exactly the three color bytes)
clears the waveform. -/
theorem c9_wave_update (waveHeight : Nat) (r g b : Nat) (data : List Nat)
    (hd : data ≠ []) :
    parseWave waveHeight (r :: g :: b :: data) =
      some (some (data.enum.map (fun p => (p.1, min p.2 (waveHeight - 1))),
        (r, g, b))) ∧
    parseWave waveHeight [r, g, b] = some none := by
  constructor
  · cases data with
    | nil => exact absurd rfl hd
    | cons d ds =>
      simp [parseWave]
  · simp [parseWave]

/-- C9 witness: a concrete waveform with height byte 99 clamped to 23 for
waveform height 24, and the empty-data clear. -/
theorem c9_witness :
    parseWave 24 [10, 20, 30, 5, 99] =
      some (some ([(0, 5), (1, 23)], (10, 20, 30))) ∧
    parseWave 24 [10, 20, 30] = some none := by
  have h := c9_wave_update 24 10 20 30 [5, 99] (by decide)
  exact ⟨by rw [h.1]; decide, h.2⟩

/-- C6, counterexample to the claim as stated: on underrun the remaining
slots are not filled with the last successfully popped sample.  With one
popped sample 5 and a two-slot hardware buffer whose stale contents are
7, 9, the callback produces 5, 9 (the stale value at index written), not
5, 5; and with nothing ever popped and stale contents 7, it produces 7,
not silence. -/
theorem c6_counterexample :
    write_audio [5] [7, 9] = [5, 9] ∧ write_audio [5] [7, 9] ≠ [5, 5] ∧
    write_audio ([] : List Nat) [7] = [7] ∧ write_audio ([] : List Nat) [7] ≠ [0] := by
  refine ⟨rfl, by decide, rfl, by decide⟩

/-- C6, amended: the playback callback fills exactly as many slots as the
hardware requests without blocking; the first written slots receive the
popped samples, and on underrun every remaining slot is filled by
repeating the pre-existing value of the output buffer at index written
(the first slot the copy loop did not touch), not the last popped
sample. -/
theorem c6_underrun_fill :
    (∀ {S : Type} (popped data rest2 : List S) (v : S),
      data.drop popped.length = v :: rest2 →
      write_audio popped data =
        popped ++ List.replicate (data.length - popped.length) v) ∧
    (∀ {S : Type} (popped data : List S), popped.length = data.length →
      write_audio popped data = popped) ∧
    (∀ {S : Type} (popped data : List S), popped.length ≤ data.length →
      (write_audio popped data).length = data.length) := by
  have hfill : ∀ {S : Type} (popped data rest2 : List S) (v : S),
      data.drop popped.length = v :: rest2 →
      write_audio popped data =
        popped ++ List.replicate (data.length - popped.length) v := by
    intro S popped data rest2 v hd
    have hlt : popped.length < data.length := by
      have hlen := congrArg List.length hd
      simp only [List.length_drop, List.length_cons] at hlen
      omega
    have hmin : min popped.length data.length = popped.length :=
      Nat.min_eq_left (Nat.le_of_lt hlt)
    have htake : popped.take data.length = popped :=
      List.take_of_length_le (Nat.le_of_lt hlt)
    unfold write_audio
    simp only [hmin, htake]
    rw [if_pos (by omega)]
    have hdrop : (popped ++ data.drop popped.length).drop popped.length =
        data.drop popped.length := List.drop_left popped _
    rw [hdrop, hd]
    show List.take popped.length (popped ++ v :: rest2) ++
        List.replicate (data.length - popped.length) v =
      popped ++ List.replicate (data.length - popped.length) v
    rw [List.take_left]
  refine ⟨hfill, ?_, ?_⟩
  · intro S popped data he
    have htake : popped.take data.length = popped :=
      List.take_of_length_le (Nat.le_of_eq he)
    have hmin : min popped.length data.length = popped.length := Nat.min_eq_left he.le
    unfold write_audio
    simp only [hmin, htake]
    rw [if_neg (by omega)]
    rw [he, List.drop_length, List.append_nil]
  · intro S popped data hle
    rcases Nat.lt_or_ge popped.length data.length with hlt | hge
    · have hne : data.drop popped.length ≠ [] := by
        intro h0
        have := congrArg List.length h0
        simp only [List.length_drop] at this
        simp at this
        omega
      cases hd : data.drop popped.length with
      | nil => exact absurd hd hne
      | cons v rest2 =>
        rw [hfill popped data rest2 v hd]
        simp only [List.length_append, List.length_replicate]
        omega
    · have he : popped.length = data.length := Nat.le_antisymm hle hge
      have htake : popped.take data.length = popped :=
        List.take_of_length_le (Nat.le_of_eq he)
      have hmin : min popped.length data.length = popped.length := Nat.min_eq_left he.le
      unfold write_audio
      simp only [hmin, htake]
      rw [if_neg (by omega)]
      rw [he, List.drop_length, List.append_nil, he]

/-- C6 witness: one popped sample into a three-slot buffer with stale
contents 4, 5, 6 yields 1 followed by two copies of the stale value 5. -/
theorem c6_witness : write_audio [1] [4, 5, 6] = [1, 5, 5] := by
  have h := c6_underrun_fill.1 [1] [4, 5, 6] [6] 5 rfl
  rw [h]; decide

theorem keymap_bit_lt {k : Key} {bit : Nat} (h : keymap k = some bit) : bit < 8 := by
  cases k <;> simp [keymap] at h <;> omega

theorem lor_shift_eq_self {s bit : Nat} (h : s.testBit bit = true) :
    s ||| 1 <<< bit = s := by
  apply Nat.eq_of_testBit_eq
  intro i
  rw [Nat.testBit_lor, Nat.shiftLeft_eq, one_mul]
  by_cases hi : bit = i
  · subst hi
    simp [h]
  · rw [Nat.testBit_two_pow_of_ne hi, Bool.or_false]

theorem lor_shift_ne_self {s bit : Nat} (h : s.testBit bit = false) :
    s ||| 1 <<< bit ≠ s := by
  intro he
  have hbit := congrArg (fun n => Nat.testBit n bit) he
  simp only [Nat.testBit_lor, Nat.shiftLeft_eq, one_mul,
    Nat.testBit_two_pow_self, Bool.or_true, h] at hbit
  exact Bool.noConfusion hbit

theorem land_mask_eq_self {s bit : Nat} (hs : s < 256) (_hb : bit < 8)
    (h : s.testBit bit = false) : s &&& (255 ^^^ 1 <<< bit) = s := by
  apply Nat.eq_of_testBit_eq
  intro i
  rw [Nat.testBit_land, Nat.testBit_xor, Nat.shiftLeft_eq, one_mul]
  have h255 : (255 : Nat) = 2 ^ 8 - 1 := rfl
  rw [h255, Nat.testBit_two_pow_sub_one]
  by_cases hi : bit = i
  · subst hi
    simp [h]
  · rw [Nat.testBit_two_pow_of_ne hi]
    by_cases hlt : i < 8
    · simp [hlt]
    · have hzero : s.testBit i = false := by
        apply Nat.testBit_lt_two_pow
        calc s < 256 := hs
          _ = 2 ^ 8 := rfl
          _ ≤ 2 ^ i := Nat.pow_le_pow_right (by omega) (by omega)
      simp [hlt, hzero]

theorem land_mask_ne_self {s bit : Nat} (hb : bit < 8) (h : s.testBit bit = true) :
    s &&& (255 ^^^ 1 <<< bit) ≠ s := by
  intro he
  have hbit := congrArg (fun n => Nat.testBit n bit) he
  have h255 : (255 : Nat) = 2 ^ 8 - 1 := rfl
  rw [h255] at hbit
  simp only [Nat.testBit_land, Nat.testBit_xor, Nat.shiftLeft_eq, one_mul,
    Nat.testBit_two_pow_sub_one, Nat.testBit_two_pow_self, h] at hbit
  simp [hb] at hbit

/-- C10: the key handler sends the two-byte keyboard message 0x43 followed
by the bitmask only when the event actually changes the bitmask: an
unmapped key sends nothing and leaves the state unchanged; pressing a key
whose bit is already set, or releasing a key whose bit is already clear,
sends nothing and leaves the state unchanged; and in the two changing
cases the new mask is stored and sent. -/
theorem c10_key_gate :
    (∀ (s : Nat) (k : Key) (d : Bool), keymap k = none →
      process_key s k d = (s, none)) ∧
    (∀ (s : Nat) (k : Key) (bit : Nat), keymap k = some bit →
      s.testBit bit = true → process_key s k true = (s, none)) ∧
    (∀ (s : Nat) (k : Key) (bit : Nat), s < 256 → keymap k = some bit →
      s.testBit bit = false → process_key s k false = (s, none)) ∧
    (∀ (s : Nat) (k : Key) (bit : Nat), keymap k = some bit →
      s.testBit bit = false →
      process_key s k true = (s ||| 1 <<< bit, some [67, s ||| 1 <<< bit])) ∧
    (∀ (s : Nat) (k : Key) (bit : Nat), keymap k = some bit →
      s.testBit bit = true →
      process_key s k false =
        (s &&& (255 ^^^ 1 <<< bit), some [67, s &&& (255 ^^^ 1 <<< bit)])) := by
  refine ⟨?_, ?_, ?_, ?_, ?_⟩
  · intro s k d hk
    simp [process_key, hk]
  · intro s k bit hk hb
    simp only [process_key, hk, if_pos rfl]
    rw [if_pos (lor_shift_eq_self hb)]
  · intro s k bit hs hk hb
    simp only [process_key, hk]
    rw [if_pos (land_mask_eq_self hs (keymap_bit_lt hk) hb)]
  · intro s k bit hk hb
    simp only [process_key, hk, if_pos rfl]
    rw [if_neg (lor_shift_ne_self hb)]
  · intro s k bit hk hb
    simp only [process_key, hk]
    rw [if_neg (land_mask_ne_self (keymap_bit_lt hk) hb)]

/-- C10 witness: concrete instances of all five cases, with key Z on bit 1. -/
theorem c10_witness :
    process_key 4 Key.other true = (4, none) ∧
    process_key 2 Key.z true = (2, none) ∧
    process_key 0 Key.z false = (0, none) ∧
    process_key 0 Key.z true = (2, some [67, 2]) ∧
    process_key 2 Key.z false = (0, some [67, 0]) :=
  ⟨c10_key_gate.1 4 Key.other true rfl,
   c10_key_gate.2.1 2 Key.z 1 rfl (by decide),
   c10_key_gate.2.2.1 0 Key.z 1 (by decide) rfl (by decide),
   c10_key_gate.2.2.2.1 0 Key.z 1 rfl (by decide),
   c10_key_gate.2.2.2.2 2 Key.z 1 rfl (by decide)⟩

theorem resampleLoop_pos {S σ : Type} (conv : Nat → S) (nf : σ → Nat)
    (step : σ → List S → List S → σ × List S) (hpos : ∀ s, 0 < nf s)
    (st : σ) (q : List Nat) (h : nf st * 2 ≤ q.length) :
    resampleLoop conv nf step hpos st q =
      ((resampleLoop conv nf step hpos (stepState conv nf step st q).1
          (q.drop (nf st * 2))).1,
        (resampleLoop conv nf step hpos (stepState conv nf step st q).1
          (q.drop (nf st * 2))).2.1,
        (stepState conv nf step st q).2 ::
          (resampleLoop conv nf step hpos (stepState conv nf step st q).1
            (q.drop (nf st * 2))).2.2) := by
  conv_lhs => rw [resampleLoop]
  rw [dif_pos h]
  rfl

theorem resampleLoop_neg {S σ : Type} (conv : Nat → S) (nf : σ → Nat)
    (step : σ → List S → List S → σ × List S) (hpos : ∀ s, 0 < nf s)
    (st : σ) (q : List Nat) (h : ¬ nf st * 2 ≤ q.length) :
    resampleLoop conv nf step hpos st q = (st, q, []) := by
  conv_lhs => rw [resampleLoop]
  rw [dif_neg h]

theorem resampleLoop_suffix {S σ : Type} (conv : Nat → S) (nf : σ → Nat)
    (step : σ → List S → List S → σ × List S) (hpos : ∀ s, 0 < nf s) :
    ∀ (n : Nat) (st : σ) (q : List Nat), q.length ≤ n →
      ∃ k, (resampleLoop conv nf step hpos st q).2.1 = q.drop k := by
  intro n
  induction n with
  | zero =>
    intro st q hq
    have h : ¬ nf st * 2 ≤ q.length := by
      have := hpos st; omega
    exact ⟨0, by rw [resampleLoop_neg conv nf step hpos st q h, List.drop_zero]⟩
  | succ n ih =>
    intro st q hq
    by_cases h : nf st * 2 ≤ q.length
    · rw [resampleLoop_pos conv nf step hpos st q h]
      have hlen : (q.drop (nf st * 2)).length ≤ n := by
        simp only [List.length_drop]
        have := hpos st; omega
      obtain ⟨k, hk⟩ := ih _ _ hlen
      refine ⟨nf st * 2 + k, ?_⟩
      show (resampleLoop conv nf step hpos (stepState conv nf step st q).1
        (q.drop (nf st * 2))).2.1 = q.drop (nf st * 2 + k)
      rw [hk, List.drop_drop]
    · exact ⟨0, by rw [resampleLoop_neg conv nf step hpos st q h, List.drop_zero]⟩

theorem resampleLoop_exit {S σ : Type} (conv : Nat → S) (nf : σ → Nat)
    (step : σ → List S → List S → σ × List S) (hpos : ∀ s, 0 < nf s) :
    ∀ (n : Nat) (st : σ) (q : List Nat), q.length ≤ n →
      (resampleLoop conv nf step hpos st q).2.1.length <
        nf (resampleLoop conv nf step hpos st q).1 * 2 := by
  intro n
  induction n with
  | zero =>
    intro st q hq
    have h : ¬ nf st * 2 ≤ q.length := by
      have := hpos st; omega
    rw [resampleLoop_neg conv nf step hpos st q h]
    show q.length < nf st * 2
    omega
  | succ n ih =>
    intro st q hq
    by_cases h : nf st * 2 ≤ q.length
    · rw [resampleLoop_pos conv nf step hpos st q h]
      have hlen : (q.drop (nf st * 2)).length ≤ n := by
        simp only [List.length_drop]
        have := hpos st; omega
      exact ih _ _ hlen
    · rw [resampleLoop_neg conv nf step hpos st q h]
      show q.length < nf st * 2
      omega

theorem wordVal_eq_zero (fmt : Fmt) (w : List Nat)
    (h : w.all (fun v => v == 0) = true) : wordVal fmt w = 0 := by
  induction w with
  | nil => rfl
  | cons v w ih =>
    simp only [List.all_cons, Bool.and_eq_true, beq_iff_eq] at h
    obtain ⟨hv, hw⟩ := h
    have hrec : wordVal fmt w = 0 := ih (by simpa using hw)
    unfold wordVal at hrec ⊢
    simp only [List.foldr_cons, hrec, hv]
    simp

theorem all_flatten_eq {α : Type} (p : α → Bool) (l : List (List α)) :
    l.flatten.all p = l.all (fun w => w.all p) := by
  induction l with
  | nil => rfl
  | cons w l ih => simp [List.all_append, ih]

theorem silenceCheck_of_all_zero (fmt : Fmt) (pre : List Nat)
    (words : List (List Nat)) (suf : List Nat)
    (hz : (pre ++ words.flatten ++ suf).all (fun v => v == 0) = true)
    (hcase : fmt.isZeroF32 0 = true ∨ (pre = [] ∧ suf = [])) :
    silenceCheck fmt pre words suf = true := by
  simp only [List.all_append, Bool.and_eq_true] at hz
  obtain ⟨⟨hpre, hflat⟩, hsuf⟩ := hz
  have hwords : words.all (fun w => wordVal fmt w == 0) = true := by
    rw [all_flatten_eq] at hflat
    rw [List.all_eq_true] at hflat ⊢
    intro w hw
    rw [beq_iff_eq]
    exact wordVal_eq_zero fmt w (hflat w hw)
  have hzeroList : ∀ (l : List Nat), l.all (fun v => v == 0) = true →
      fmt.isZeroF32 0 = true → l.all fmt.isZeroF32 = true := by
    intro l hl hz0
    rw [List.all_eq_true] at hl ⊢
    intro v hv
    have := hl v hv
    rw [beq_iff_eq] at this
    rw [this]
    exact hz0
  unfold silenceCheck
  rcases hcase with hz0 | ⟨hp, hs⟩
  · rw [hzeroList pre hpre hz0, hzeroList suf hsuf hz0, hwords]
    rfl
  · subst hp; subst hs
    rw [hwords]
    rfl

/-- C4, counterexample to the claim as stated: an all-zero capture buffer
of an unsigned sample width is not always skipped.  A one-element all-zero
u8 buffer can never lie in the aligned 16-byte-word region, and the
leftover element converts to -1.0, not 0.0, so the silence test fails for
every admissible align_to split: the src/src/main.rs callback publishes a
tag-A message (leading byte 65), and the src/src/audio.rs callback
appends the sample to the resampler queue. -/
theorem c4_counterexample :
    write_data_az u8Fmt (fun l => l) [0] [] [] = some [65, 0] ∧
    write_data_az u8Fmt (fun l => l) [] [] [0] = some [65, 0] ∧
    write_data_az u8Fmt (fun l => l) [0] [] [] ≠ none ∧
    write_data u8Fmt (fun v => v) (fun _ : Unit => 2) (fun s l r2 => (s, l ++ r2))
      (fun _ => Nat.succ_pos 1) [0] [] [] () [] = ((), [0], []) ∧
    ([0] : List Nat) ≠ [] := by
  refine ⟨rfl, rfl, by decide, ?_, by decide⟩
  unfold write_data
  rw [if_neg (by decide)]
  exact resampleLoop_neg _ _ _ _ () _ (by decide)

/-- C4, amended: an all-zero capture buffer is skipped, neither appended
to the resampler queue nor sent, whenever the sample format converts raw
zero to 0.0f32 (all signed-integer and float widths) or the buffer
decomposes with no unaligned leftover elements; the signed and float
formats all satisfy the raw-zero condition while none of the unsigned
formats do (raw zero is their full-scale negative), which is why unsigned
all-zero buffers are only skipped when fully aligned. -/
theorem c4_silence_skip :
    (∀ {S σ : Type} (conv : Nat → S) (nf : σ → Nat)
        (step : σ → List S → List S → σ × List S) (hpos : ∀ s, 0 < nf s)
        (enc : List Nat → List Nat) (fmt : Fmt) (pre : List Nat)
        (words : List (List Nat)) (suf : List Nat) (st : σ) (q : List Nat),
      (pre ++ words.flatten ++ suf).all (fun v => v == 0) = true →
      fmt.isZeroF32 0 = true ∨ (pre = [] ∧ suf = []) →
      write_data fmt conv nf step hpos pre words suf st q = (st, q, []) ∧
        write_data_az fmt enc pre words suf = none) ∧
    ([i8Fmt, i16Fmt, i32Fmt, i64Fmt, f32Fmt, f64Fmt].all
      (fun f => f.isZeroF32 0) = true) ∧
    ([u8Fmt, u16Fmt, u32Fmt, u64Fmt].any (fun f => f.isZeroF32 0) = false) := by
  refine ⟨?_, by decide, by decide⟩
  intro S σ conv nf step hpos enc fmt pre words suf st q hz hcase
  have hs := silenceCheck_of_all_zero fmt pre words suf hz hcase
  constructor
  · unfold write_data
    rw [if_pos hs]
  · unfold write_data_az
    rw [if_pos hs]

/-- C4 witness: a fully-zero i16 buffer with an unaligned leftover zero
sample and one aligned zero word is skipped by both callbacks. -/
theorem c4_witness :
    write_data i16Fmt (fun v => v) (fun _ : Unit => 1) (fun s l r2 => (s, l ++ r2))
        (fun _ => Nat.one_pos) [0] [[0, 0, 0, 0, 0, 0, 0, 0]] [] () [] = ((), [], []) ∧
    write_data_az i16Fmt (fun l => l) [0] [[0, 0, 0, 0, 0, 0, 0, 0]] [] = none :=
  c4_silence_skip.1 (fun v => v) (fun _ : Unit => 1) (fun s l r2 => (s, l ++ r2))
    (fun _ => Nat.one_pos) (fun l => l) i16Fmt [0] [[0, 0, 0, 0, 0, 0, 0, 0]] [] () []
    (by decide) (Or.inl (by decide))

/-- C5: the capture-side drain loop runs a resampling step only while the
pending queue holds at least input_frames_next() times the channel count
(2) samples, and each step consumes exactly that many samples from the
front of the queue (first conjunct, the loop unfolding); when the queue
holds fewer, nothing runs and the queue is preserved unchanged (second
conjunct); the remaining queue is always a suffix of the input queue, so
the retained samples are never dropped or duplicated (third conjunct); on
exit the remaining queue is strictly below the next required count (fourth
conjunct); and feeding write_data fewer samples than the required count
leaves them queued, appended after the existing queue, and produces no
output (fifth conjunct). -/
theorem c5_resampler_queue :
    (∀ {S σ : Type} (conv : Nat → S) (nf : σ → Nat)
        (step : σ → List S → List S → σ × List S) (hpos : ∀ s, 0 < nf s)
        (st : σ) (q : List Nat), nf st * 2 ≤ q.length →
      resampleLoop conv nf step hpos st q =
        ((resampleLoop conv nf step hpos (stepState conv nf step st q).1
            (q.drop (nf st * 2))).1,
          (resampleLoop conv nf step hpos (stepState conv nf step st q).1
            (q.drop (nf st * 2))).2.1,
          (stepState conv nf step st q).2 ::
            (resampleLoop conv nf step hpos (stepState conv nf step st q).1
              (q.drop (nf st * 2))).2.2)) ∧
    (∀ {S σ : Type} (conv : Nat → S) (nf : σ → Nat)
        (step : σ → List S → List S → σ × List S) (hpos : ∀ s, 0 < nf s)
        (st : σ) (q : List Nat), q.length < nf st * 2 →
      resampleLoop conv nf step hpos st q = (st, q, [])) ∧
    (∀ {S σ : Type} (conv : Nat → S) (nf : σ → Nat)
        (step : σ → List S → List S → σ × List S) (hpos : ∀ s, 0 < nf s)
        (st : σ) (q : List Nat),
      ∃ k, (resampleLoop conv nf step hpos st q).2.1 = q.drop k) ∧
    (∀ {S σ : Type} (conv : Nat → S) (nf : σ → Nat)
        (step : σ → List S → List S → σ × List S) (hpos : ∀ s, 0 < nf s)
        (st : σ) (q : List Nat),
      (resampleLoop conv nf step hpos st q).2.1.length <
        nf (resampleLoop conv nf step hpos st q).1 * 2) ∧
    (∀ {S σ : Type} (conv : Nat → S) (nf : σ → Nat)
        (step : σ → List S → List S → σ × List S) (hpos : ∀ s, 0 < nf s)
        (fmt : Fmt) (pre : List Nat) (words : List (List Nat)) (suf : List Nat)
        (st : σ) (q : List Nat),
      silenceCheck fmt pre words suf = false →
      (q ++ (pre ++ words.flatten ++ suf)).length < nf st * 2 →
      write_data fmt conv nf step hpos pre words suf st q =
        (st, q ++ (pre ++ words.flatten ++ suf), [])) := by
  refine ⟨?_, ?_, ?_, ?_, ?_⟩
  · intro S σ conv nf step hpos st q h
    exact resampleLoop_pos conv nf step hpos st q h
  · intro S σ conv nf step hpos st q h
    exact resampleLoop_neg conv nf step hpos st q (by omega)
  · intro S σ conv nf step hpos st q
    exact resampleLoop_suffix conv nf step hpos q.length st q (Nat.le_refl _)
  · intro S σ conv nf step hpos st q
    exact resampleLoop_exit conv nf step hpos q.length st q (Nat.le_refl _)
  · intro S σ conv nf step hpos fmt pre words suf st q hsil hlen
    unfold write_data
    rw [if_neg (by simp [hsil])]
    exact resampleLoop_neg conv nf step hpos st _ (by omega)

/-- C5 witness: with a resampler requiring 2 frames (4 samples) per step,
a 3-sample queue is left untouched with no output; a 5-sample queue leaves
a suffix; and write_data on a 1-sample non-silent buffer with an empty
queue just queues the sample. -/
theorem c5_witness :
    resampleLoop (fun v => v) (fun _ : Unit => 2) (fun s l r2 => (s, l ++ r2))
        (fun _ => Nat.succ_pos 1) () [9, 8, 7] = ((), [9, 8, 7], []) ∧
    (∃ k, (resampleLoop (fun v => v) (fun _ : Unit => 2) (fun s l r2 => (s, l ++ r2))
        (fun _ => Nat.succ_pos 1) () [1, 2, 3, 4, 5]).2.1 =
      List.drop k [1, 2, 3, 4, 5]) ∧
    write_data i8Fmt (fun v => v) (fun _ : Unit => 2) (fun s l r2 => (s, l ++ r2))
        (fun _ => Nat.succ_pos 1) [1] [] [] () [] = ((), [1], []) :=
  ⟨c5_resampler_queue.2.1 (fun v => v) (fun _ : Unit => 2) (fun s l r2 => (s, l ++ r2))
      (fun _ => Nat.succ_pos 1) () [9, 8, 7] (by decide),
   c5_resampler_queue.2.2.1 (fun v => v) (fun _ : Unit => 2) (fun s l r2 => (s, l ++ r2))
      (fun _ => Nat.succ_pos 1) () [1, 2, 3, 4, 5],
   c5_resampler_queue.2.2.2.2 (fun v => v) (fun _ : Unit => 2) (fun s l r2 => (s, l ++ r2))
      (fun _ => Nat.succ_pos 1) i8Fmt [1] [] [] () [] (by decide) (by decide)⟩
